import Mathlib

/-!
Verification of the IdeaForge AI-orchestration core (`server.js` and the
hybrid-orchestration variant of the same server, plus the front-end parser).
The development shallowly embeds, faithfully to the JavaScript source: the
JSON value space and JavaScript truthiness/field access used by the backend
adapters' response extraction; `exponentialBackoffFetch` (the resilient
fetch primitive); the extraction step of `callGemini`, `callOpenAI`,
`callOllama` and `callHuggingFace`; the backend `parseNumberedList`
(inspire/critique endpoints) and the front-end `parseNumberedList`
(public/app.js) with its sentence-split fallback; the `/api/inspire`
backend selection and per-item title fallback; the `/api/synthesize`
validation; and the `/api/critique` post-processing.  Network effects are
abstracted: a transport is a function from the attempt index to either a
response or a thrown error; an adapter's generate call is a function from
the backend identity to `Except String String`.
-/

/-- JavaScript whitespace characters relevant to `\s` and `String.trim` for
the ASCII payloads in scope (space, tab, newline, carriage return, vertical
tab, form feed). -/
def isJsSpace (c : Char) : Bool :=
  c == ' ' || c == '\t' || c == '\n' || c == '\r' || c == '\x0b' || c == '\x0c'

/-- Split a character list on a separator character, mirroring
`String.prototype.split`: always returns at least one (possibly empty)
piece and the separator belongs to no piece. -/
def splitChar (sep : Char) : List Char → List (List Char)
  | [] => [[]]
  | c :: cs =>
    if c == sep then [] :: splitChar sep cs
    else
      match splitChar sep cs with
      | [] => [[c]]
      | p :: ps => (c :: p) :: ps

/-- Drop leading characters satisfying `p` (the left half of `trim`). -/
def trimL (p : Char → Bool) (l : List Char) : List Char := l.dropWhile p

/-- Drop trailing characters satisfying `p` (the right half of `trim`). -/
def trimR (p : Char → Bool) (l : List Char) : List Char :=
  (l.reverse.dropWhile p).reverse

/-- `String.prototype.trim` on a character list. -/
def jsTrim (l : List Char) : List Char := trimR isJsSpace (trimL isJsSpace l)

/-- Match one line against `^\s*\d+\.\s*(.*)$` and return the capture group:
optional leading whitespace, one or more digits, a literal period, optional
whitespace, then the captured remainder. -/
def matchNumbered (l : List Char) : Option (List Char) :=
  let l1 := l.dropWhile isJsSpace
  let ds := l1.takeWhile Char.isDigit
  let r := l1.drop ds.length
  if ds.isEmpty then none
  else if r.headD ' ' == '.' then some (r.tail.dropWhile isJsSpace) else none

/-- The accumulation loop of the backend `parseNumberedList` (server.js):
walks the lines keeping the accumulated `items` and the in-progress
`current`; a numbered line flushes a non-empty `current` and restarts it
from the capture; a non-blank unnumbered line is space-joined onto
`current`; a blank line is skipped; the final non-empty `current` is
flushed at the end.  `if (current)` is JavaScript string truthiness, i.e.
non-emptiness. -/
def pnlLoop : List (List Char) → List (List Char) → List Char → List (List Char)
  | [], items, current =>
    if current.isEmpty then items else items ++ [jsTrim current]
  | l :: ls, items, current =>
    match matchNumbered l with
    | some rest =>
      pnlLoop ls (if current.isEmpty then items else items ++ [jsTrim current]) rest
    | none =>
      if (jsTrim l).isEmpty then pnlLoop ls items current
      else pnlLoop ls items (jsTrim (current ++ ' ' :: jsTrim l))

/-- The backend `parseNumberedList` of server.js (identical copies live in
the `/api/inspire` and `/api/critique` handlers): split on newlines and run
the accumulation loop. -/
def parseNumberedList (txt : String) : List String :=
  (pnlLoop (splitChar '\n' txt.data) [] []).map String.mk

/-- JSON values as decoded by `JSON.parse`.  Objects keep their fields in
source order; duplicate keys are resolved by the first match of the lookup
below (the payloads in scope have no duplicates). -/
inductive Json where
  | null
  | bool (b : Bool)
  | num (n : Int)
  | str (s : String)
  | arr (xs : List Json)
  | obj (fs : List (String × Json))

/-- Field lookup in an object's field list. -/
def lookupField : List (String × Json) → String → Option Json
  | [], _ => none
  | (k, v) :: fs, key => if k == key then some v else lookupField fs key

/-- JavaScript property access `o.k` on a possibly-undefined value
(`none` models `undefined`).  Property access on arrays, strings, numbers
and booleans yields `undefined` for the application keys in scope; access
on `null`/`undefined` would throw a TypeError, which the adapters below
model explicitly where it can occur. -/
def ofield (o : Option Json) (k : String) : Option Json :=
  match o with
  | some (Json.obj fs) => lookupField fs k
  | _ => none

/-- JavaScript element access `o[0]`: first element of an array, the "0"
property of an object, `undefined` otherwise. -/
def oindex0 (o : Option Json) : Option Json :=
  match o with
  | some (Json.arr (x :: _)) => some x
  | some (Json.obj fs) => lookupField fs "0"
  | _ => none

/-- `Array.isArray` on a possibly-undefined value. -/
def oisArr (o : Option Json) : Bool :=
  match o with
  | some (Json.arr _) => true
  | _ => false

/-- JavaScript truthiness: `undefined`, `null`, `false`, `0` and the empty
string are falsy; objects and arrays are truthy. -/
def truthy : Option Json → Bool
  | none => false
  | some Json.null => false
  | some (Json.bool b) => b
  | some (Json.num n) => decide (n ≠ 0)
  | some (Json.str s) => !s.isEmpty
  | some (Json.arr _) => true
  | some (Json.obj _) => true

/-- JavaScript `a || b` on values: `a` when truthy, otherwise `b`. -/
def jsOr (a b : Option Json) : Option Json := if truthy a then a else b

/-- JavaScript `a && b` on values: `b` when `a` is truthy, otherwise `a`. -/
def jsAnd (a b : Option Json) : Option Json := if truthy a then b else a

/-- Opening brace character (written via its code point). -/
def lbrace : Char := Char.ofNat 123

/-- Closing brace character (written via its code point). -/
def rbrace : Char := Char.ofNat 125

/-- Double-quote character. -/
def dquote : Char := Char.ofNat 34

/-- Escape a character for a JSON string literal (quote and backslash). -/
def jsonEscapeChar (c : Char) : List Char :=
  if c == dquote || c == '\\' then ['\\', c] else [c]

/-- Quote a string as a JSON string literal. -/
def quoteStr (s : String) : String :=
  String.mk (dquote :: (s.data.map jsonEscapeChar).flatten ++ [dquote])

mutual

/-- A model of `JSON.stringify` on decoded values (compact form, no spaces),
used by the adapters' shape-mismatch fallbacks. -/
def jsonStringify : Json → String
  | Json.null => "null"
  | Json.bool b => cond b "true" "false"
  | Json.num n => toString n
  | Json.str s => quoteStr s
  | Json.arr xs => "[" ++ stringifyArr xs ++ "]"
  | Json.obj fs => String.mk [lbrace] ++ stringifyObj fs ++ String.mk [rbrace]

/-- Serialize an array's elements, comma separated. -/
def stringifyArr : List Json → String
  | [] => ""
  | [x] => jsonStringify x
  | x :: y :: xs => jsonStringify x ++ "," ++ stringifyArr (y :: xs)

/-- Serialize an object's fields, comma separated. -/
def stringifyObj : List (String × Json) → String
  | [] => ""
  | [(k, v)] => quoteStr k ++ ":" ++ jsonStringify v
  | (k, v) :: f :: fs => quoteStr k ++ ":" ++ jsonStringify v ++ "," ++ stringifyObj (f :: fs)

end

/-- String coercion used by `'text' + v` in thrown messages. -/
def jsToString (v : Json) : String :=
  match v with
  | Json.str s => s
  | Json.num n => toString n
  | Json.bool b => cond b "true" "false"
  | Json.null => "null"
  | v => jsonStringify v

/-- Response extraction of `callGemini` (server.js): inside the try block the
code probes `candidates[0].content.parts[0].text`, falling through to
`output[0].content[0].text`, then `candidates[0].text`, then
`JSON.stringify(json)`; the catch returns the raw body text.  `parsed = none`
models a `JSON.parse` throw; a `null` payload throws a TypeError on the first
property access, also caught, returning the raw text. -/
def geminiExtract (text : String) (parsed : Option Json) : Json :=
  match parsed with
  | none => Json.str text
  | some Json.null => Json.str text
  | some json =>
    let candidates := ofield (some json) "candidates"
    let step1 : Option Json :=
      if truthy candidates && oisArr candidates && truthy (oindex0 candidates) &&
          truthy (ofield (oindex0 candidates) "content") then
        let content := ofield (oindex0 candidates) "content"
        let parts := jsOr (jsOr (ofield content "parts")
          (jsAnd (oindex0 content) (ofield (oindex0 content) "parts"))) (some (Json.arr []))
        if truthy parts && truthy (oindex0 parts) && truthy (ofield (oindex0 parts) "text") then
          ofield (oindex0 parts) "text"
        else none
      else none
    match step1 with
    | some v => v
    | none =>
      let output := ofield (some json) "output"
      if truthy output && oisArr output && truthy (oindex0 output) &&
          truthy (ofield (oindex0 output) "content") &&
          truthy (oindex0 (ofield (oindex0 output) "content")) then
        (jsOr (ofield (oindex0 (ofield (oindex0 output) "content")) "text")
          (some (Json.str (jsonStringify json)))).getD Json.null
      else if truthy candidates && oisArr candidates && truthy (oindex0 candidates) &&
          truthy (ofield (oindex0 candidates) "text") then
        (ofield (oindex0 candidates) "text").getD Json.null
      else Json.str (jsonStringify json)

/-- Response extraction of `callOpenAI` (server.js): probes
`choices[0].message.content` (returned without a further truthiness check,
so an absent `content` comes back as the undefined value, modelled `null`),
else `JSON.stringify(json)`; the catch returns the raw body text. -/
def openaiExtract (text : String) (parsed : Option Json) : Json :=
  match parsed with
  | none => Json.str text
  | some Json.null => Json.str text
  | some json =>
    let choices := ofield (some json) "choices"
    if truthy choices && oisArr choices && truthy (oindex0 choices) &&
        truthy (ofield (oindex0 choices) "message") then
      (ofield (ofield (oindex0 choices) "message") "content").getD Json.null
    else Json.str (jsonStringify json)

/-- Response extraction of `callOllama` (server.js, after its status check):
`json.response || text` inside a try whose catch returns the raw text. -/
def ollamaExtract (text : String) (parsed : Option Json) : Json :=
  match parsed with
  | none => Json.str text
  | some Json.null => Json.str text
  | some json => (jsOr (ofield (some json) "response") (some (Json.str text))).getD Json.null

/-- The try-block body of `callHuggingFace`'s extraction (server.js):
`[0].generated_text`, then `.generated_text`, then a `throw` when the
payload has a truthy `error` field, else `JSON.stringify(j)`.  The thrown
value is returned in the `error` component; property access on a `null`
payload throws a TypeError. -/
def hfTryBody (j : Json) : Except Json Json :=
  match j with
  | Json.null => Except.error (Json.str "TypeError")
  | j =>
    if oisArr (some j) && truthy (oindex0 (some j)) &&
        truthy (ofield (oindex0 (some j)) "generated_text") then
      Except.ok ((ofield (oindex0 (some j)) "generated_text").getD Json.null)
    else if truthy (ofield (some j) "generated_text") then
      Except.ok ((ofield (some j) "generated_text").getD Json.null)
    else if truthy (ofield (some j) "error") then
      Except.error (Json.str ("HuggingFace error: " ++
        jsToString ((ofield (some j) "error").getD Json.null)))
    else Except.ok (Json.str (jsonStringify j))

/-- Full `callHuggingFace` result handling (server.js): a non-2xx status
throws `HuggingFace <status>: <body>` before the try block; inside the try,
`JSON.parse` failure or any throw from the body is caught and the raw body
text is returned. -/
def hfExtract (status : Nat) (text : String) (parsed : Option Json) : Except String Json :=
  if 200 ≤ status ∧ status < 300 then
    match parsed with
    | none => Except.ok (Json.str text)
    | some j =>
      match hfTryBody j with
      | Except.ok v => Except.ok v
      | Except.error _ => Except.ok (Json.str text)
  else Except.error ("HuggingFace " ++ toString status ++ ": " ++ text)

/-- Whether a decoded payload has a given top-level field. -/
def hasField (j : Json) (k : String) : Bool := (ofield (some j) k).isSome

/-- A transport-level HTTP response (only the status is inspected by
`exponentialBackoffFetch`; `res.ok` is `200 <= status < 300`). -/
structure Resp where
  status : Nat
deriving DecidableEq

/-- The loop body of `exponentialBackoffFetch` (server.js).  `f i` is the
result of the `i`-th underlying `fetch` call (0-based): either a response or
a thrown connection error.  The loop keeps the mutable `attempt` counter
`a`; one iteration fetches, rethrows a 5xx as `Server error <status>` while
`attempt < maxRetries`, and in the catch increments `attempt`, propagating
the error once `attempt > maxRetries`, otherwise sleeping (delays are not
modelled) and looping.  The returned `Nat` counts fetch calls performed.
`fuel` bounds the recursion; `maxRetries + 1` iterations always suffice
because `attempt` grows by one per non-returning iteration. -/
def bLoop (f : Nat → Except String Resp) (m : Nat) : Nat → Nat → Nat × Except String Resp
  | _, 0 => (0, Except.error "out of fuel")
  | a, fuel + 1 =>
    match f a with
    | Except.ok r =>
      if 500 ≤ r.status ∧ a < m then
        if a + 1 > m then (1, Except.error ("Server error " ++ toString r.status))
        else ((bLoop f m (a + 1) fuel).1 + 1, (bLoop f m (a + 1) fuel).2)
      else (1, Except.ok r)
    | Except.error e =>
      if a + 1 > m then (1, Except.error e)
      else ((bLoop f m (a + 1) fuel).1 + 1, (bLoop f m (a + 1) fuel).2)

/-- `exponentialBackoffFetch(url, options, maxRetries)`: run the retry loop
from `attempt = 0`.  Returns the number of fetch calls performed together
with the final outcome (a returned response or a propagated exception). -/
def exponentialBackoffFetch (f : Nat → Except String Resp) (maxRetries : Nat) :
    Nat × Except String Resp :=
  bLoop f maxRetries 0 (maxRetries + 1)

/-- A transport whose every call returns HTTP 500. -/
def alwaysFive : Nat → Except String Resp := fun _ => Except.ok ⟨500⟩

/-- The per-item fallback title of `/api/inspire` (server.js):
`(it.split('\n')[0] || '').slice(0, 80)` — first line of the item text,
truncated to 80 characters (`split` always yields at least one piece, and
`|| ''` maps only the empty string to itself here). -/
def fallbackTitle (it : String) : String :=
  String.mk (((splitChar '\n' it.data).headD []).take 80)

/-- The resolved per-item title: `generateShortTitle(it).catch(...)` —
the title-generation result when it succeeds, else the fallback title
derived from the item's own text.  The catch is attached per item, so a
failure never escapes. -/
def resolveTitle (it : String) (r : Except String String) : String :=
  match r with
  | Except.ok t => t
  | Except.error _ => fallbackTitle it

/-- JavaScript `t || ''` on a defined string. -/
def jsOrEmptyStr (t : String) : String := if t = "" then "" else t

/-- One entry of the inspire response's `ideas` array (the uuid is not
modelled). -/
structure Idea where
  text : String
  title : String

/-- The idea-assembly step of `/api/inspire` (server.js): one entry per
parsed item, pairing the item text with its resolved (caught) title via
`titles[idx] || ''`.  `titleOf` gives each item's title-generation
outcome. -/
def inspireIdeas (items : List String) (titleOf : String → Except String String) :
    List Idea :=
  items.map (fun it => ⟨it, jsOrEmptyStr (resolveTitle it (titleOf it))⟩)

/-- The post-generation step of `/api/critique` (hybrid-orchestration
variant, lines 878-884): parse the generated text, keep at most 3 points,
and when parsing yields none substitute `[output.slice(0, 100) + '...']`. -/
def critiqueFinalPoints (output : String) : List String :=
  let pts := (parseNumberedList output).take 3
  if 0 < pts.length then pts else [String.mk (output.data.take 100) ++ "..."]

/-- Line match of the FRONT-END `parseNumberedList` (public/app.js):
`^\d+\.?\s*(.*)$` — leading digits (no leading whitespace; lines arrive
pre-trimmed), an optional period, optional whitespace, captured rest. -/
def feMatch (l : List Char) : Option (List Char) :=
  let ds := l.takeWhile Char.isDigit
  if ds.isEmpty then none
  else
    let r := l.drop ds.length
    let r2 := if r.headD ' ' == '.' then r.tail else r
    some (r2.dropWhile isJsSpace)

/-- Prepend a character onto the first piece of a split-in-progress. -/
def consHead (c : Char) : List (List Char) → List (List Char)
  | [] => [[c]]
  | p :: ps => (c :: p) :: ps

/-- The bullet character `U+2022` used by the front-end sentence split. -/
def bulletChar : Char := Char.ofNat 8226

/-- Whether the `\s+•\s+` alternative matches at a whitespace position:
after the whitespace run comes a bullet followed by more whitespace. -/
def bulletAhead (l : List Char) : Bool :=
  match l.dropWhile isJsSpace with
  | b :: t => b == bulletChar && (match t with | d :: _ => isJsSpace d | [] => false)
  | [] => false

/-- Consume the `\s+•\s+` match: the whitespace run, the bullet, and the
following whitespace run. -/
def afterBullet (l : List Char) : List Char :=
  match l.dropWhile isJsSpace with
  | _ :: t => t.dropWhile isJsSpace
  | [] => []

/-- Left-to-right scan implementing the front-end sentence split
`raw.split(/(?<=\.)\s+|;\s+|\s+•\s+/)`: at each position the alternatives
are tried in order — whitespace preceded by a period, a semicolon followed
by whitespace, or whitespace-bullet-whitespace — and a match starts a new
piece; `prevDot` tracks whether the previous character was a period (the
lookbehind).  `fuel` bounds the recursion (each step consumes at least one
character, so the input length suffices). -/
def sentAux : Nat → Bool → List Char → List (List Char)
  | _, _, [] => [[]]
  | 0, _, l => [l]
  | fuel + 1, prevDot, c :: rest =>
    if prevDot && isJsSpace c then
      [] :: sentAux fuel false ((c :: rest).dropWhile isJsSpace)
    else if c == ';' && (match rest with | d :: _ => isJsSpace d | [] => false) then
      [] :: sentAux fuel false (rest.dropWhile isJsSpace)
    else if isJsSpace c && bulletAhead (c :: rest) then
      [] :: sentAux fuel false (afterBullet (c :: rest))
    else
      consHead c (sentAux fuel (c == '.') rest)

/-- The line pass of the front-end `parseNumberedList` (public/app.js):
split on line breaks, trim, drop blank lines, and map each line to its
`^\d+\.?\s*(.*)$` capture when it matches, else to the line itself.
(The source splits on `\r?\n`; splitting on `\n` is equivalent here
because every piece is immediately trimmed, which removes a trailing
carriage return.) -/
def feLineItems (raw : List Char) : List (List Char) :=
  (((splitChar '\n' raw).map jsTrim).filter (fun l => !l.isEmpty)).map
    (fun line => match feMatch line with | some cap => cap | none => line)

/-- The degraded-format recovery pass of the front-end parser: re-split the
ORIGINAL text on sentence-ending punctuation/semicolons/bullets, trim and
drop empties. -/
def feSentenceItems (raw : List Char) : List (List Char) :=
  ((sentAux raw.length false raw).map jsTrim).filter (fun l => !l.isEmpty)

/-- The front-end `parseNumberedList` (public/app.js): the line pass, then
— when it produced at most one item — the sentence-split fallback, then
`slice(0, 3)`. -/
def feParseNumberedList (text : String) : List String :=
  let items := feLineItems text.data
  ((if items.length ≤ 1 then feSentenceItems text.data else items).take 3).map String.mk

/-- An output item of the backend parser loop: non-empty and free of line
breaks. -/
def GoodItem (i : List Char) : Prop := i ≠ [] ∧ ('\n' : Char) ∉ i

/-- The stable error codes of the API boundary. -/
inductive ErrCode where
  | MISSING_CONTENT
  | INVALID_INPUT
  | AI_SERVICE_ERROR
  | PARSE_ERROR
  | INTERNAL_ERROR
deriving DecidableEq

/-- The generative backends reachable from server.js. -/
inductive Backend where
  | ollama
  | openai
  | huggingface
  | gemini
deriving DecidableEq

/-- The environment-derived configuration consulted by the `/api/inspire`
handler of server.js: `preferred` is `PREFERRED_PROVIDER` lowercased (the
empty string when unset, which is falsy in JavaScript), and the three key
flags record whether `OPENAI_API_KEY`, `GEMINI_API_KEY` and
`HUGGINGFACE_API_KEY` are non-empty. -/
structure EnvCfg where
  preferred : String
  openaiKey : Bool
  geminiKey : Bool
  hfKey : Bool

/-- The backend selection chain of the `/api/inspire` handler (server.js):
`preferred === 'ollama'` picks Ollama; `preferred === 'openai'` or (no
preference, OpenAI key present, no Gemini key) picks OpenAI;
`preferred === 'huggingface'` or (no preference, HF key present, no Gemini
and no OpenAI key) picks HuggingFace; otherwise Gemini. -/
def selectInspireBackend (e : EnvCfg) : Backend :=
  if e.preferred == "ollama" then Backend.ollama
  else if e.preferred == "openai" || (e.preferred == "" && e.openaiKey && !e.geminiKey) then
    Backend.openai
  else if e.preferred == "huggingface" ||
      (e.preferred == "" && e.hfKey && !e.geminiKey && !e.openaiKey) then
    Backend.huggingface
  else Backend.gemini

/-- The backend-call phase of `/api/inspire` (server.js lines 315-335): a
single backend is chosen by the selection chain and called inside one
try/catch; any exception from that call is answered immediately with
HTTP 503 / AI_SERVICE_ERROR.  The first component records which backends
were attempted, in order. -/
def inspireAttempt (e : EnvCfg) (gen : Backend → Except String String) :
    List Backend × Except (Nat × ErrCode) String :=
  let b := selectInspireBackend e
  match gen b with
  | Except.ok out => ([b], Except.ok out)
  | Except.error _ => ([b], Except.error (503, ErrCode.AI_SERVICE_ERROR))

/-- The backend selection chain of the hybrid-orchestration variant's
`/api/inspire` (the variant server source, lines 677-699): Ollama when
`OLLAMA_URL` is set, else Gemini when its key is set, else OpenAI when its
key is set, else `throw 'No AI provider available'`. -/
def selectInspireBackendHybrid (ollamaUrl geminiKey openaiKey : Bool) : Option Backend :=
  if ollamaUrl then some Backend.ollama
  else if geminiKey then some Backend.gemini
  else if openaiKey then some Backend.openai
  else none

/-- The backend-call phase of the hybrid variant's `/api/inspire`: also a
single attempt inside one try/catch answering 503 on any throw. -/
def inspireAttemptHybrid (ollamaUrl geminiKey openaiKey : Bool)
    (gen : Backend → Except String String) :
    List Backend × Except (Nat × ErrCode) String :=
  match selectInspireBackendHybrid ollamaUrl geminiKey openaiKey with
  | none => ([], Except.error (503, ErrCode.AI_SERVICE_ERROR))
  | some b =>
    match gen b with
    | Except.ok out => ([b], Except.ok out)
    | Except.error _ => ([b], Except.error (503, ErrCode.AI_SERVICE_ERROR))

/-- A configuration with OpenAI and HuggingFace credentials and no Gemini
key: the inspire chain selects OpenAI, and HuggingFace is a configured
alternative. -/
def cfgTwoBackends : EnvCfg := ⟨"", true, false, true⟩

/-- A generate function on which the selected backend throws while every
other backend succeeds. -/
def genPreferredFails : Backend → Except String String :=
  fun b => if b == Backend.openai then Except.error "boom"
           else Except.ok "1. A\n2. B\n3. C"

/-- The input-validation step of `/api/synthesize` (server.js):
`!Array.isArray(concepts) || concepts.length < 2` answers HTTP 400 /
INVALID_INPUT before any backend work; everything else proceeds. -/
def synthesizeValidate (concepts : Json) : Option (Nat × ErrCode) :=
  match concepts with
  | Json.arr xs => if xs.length < 2 then some (400, ErrCode.INVALID_INPUT) else none
  | _ => some (400, ErrCode.INVALID_INPUT)

/-- A payload without a field yields `undefined` on access. -/
lemma ofield_eq_none {j : Json} {k : String} (h : hasField j k = false) :
    ofield (some j) k = none := by
  cases ho : ofield (some j) k with
  | none => rfl
  | some v => unfold hasField at h; rw [ho] at h; simp at h

/-- Claim C4: for every object payload containing none of the expected
fields, each adapter's response-extraction step returns the serialized
payload (or, for the local adapter, the raw response text) as a string and
never throws; the shape-mismatch branch is unreachable as an error.  The
non-JSON case (parse failure) likewise returns the raw text. -/
theorem normalizer_never_throws (text : String) (fs : List (String × Json))
    (h1 : hasField (Json.obj fs) "candidates" = false)
    (h2 : hasField (Json.obj fs) "output" = false)
    (h3 : hasField (Json.obj fs) "choices" = false)
    (h4 : hasField (Json.obj fs) "response" = false)
    (h5 : hasField (Json.obj fs) "generated_text" = false)
    (h6 : hasField (Json.obj fs) "error" = false) :
    geminiExtract text (some (Json.obj fs)) = Json.str (jsonStringify (Json.obj fs)) ∧
    openaiExtract text (some (Json.obj fs)) = Json.str (jsonStringify (Json.obj fs)) ∧
    ollamaExtract text (some (Json.obj fs)) = Json.str text ∧
    hfExtract 200 text (some (Json.obj fs)) =
      Except.ok (Json.str (jsonStringify (Json.obj fs))) ∧
    geminiExtract text none = Json.str text ∧
    openaiExtract text none = Json.str text ∧
    ollamaExtract text none = Json.str text ∧
    hfExtract 200 text none = Except.ok (Json.str text) := by
  have e1 := ofield_eq_none h1
  have e2 := ofield_eq_none h2
  have e3 := ofield_eq_none h3
  have e4 := ofield_eq_none h4
  have e5 := ofield_eq_none h5
  have e6 := ofield_eq_none h6
  refine ⟨?_, ?_, ?_, ?_, rfl, rfl, rfl, ?_⟩
  · simp [geminiExtract, e1, e2, truthy, oisArr, jsOr]
  · simp [openaiExtract, e3, truthy]
  · simp [ollamaExtract, e4, jsOr, truthy]
  · simp [hfExtract, hfTryBody, e5, e6, truthy, oisArr, oindex0]
  · simp [hfExtract]

/-- Witness for claim C4 at a concrete no-expected-fields payload. -/
theorem normalizer_never_throws_witness :
    hasField (Json.obj [("foo", Json.str "bar")]) "candidates" = false ∧
    ollamaExtract "xyz" (some (Json.obj [("foo", Json.str "bar")])) = Json.str "xyz" := by
  refine ⟨by decide, ?_⟩
  exact (normalizer_never_throws "xyz" [("foo", Json.str "bar")]
    (by decide) (by decide) (by decide) (by decide) (by decide) (by decide)).2.2.1

/-- Claim C5 (code evaluated at the failing input): a 2xx response whose
payload carries an `error` field does NOT propagate an exception from
`callHuggingFace` — the `throw` inside the try block is intercepted by the
adapter's own catch, which returns the raw body text; the non-2xx half of
the claim does hold (a non-success status throws before the try block). -/
theorem hf_error_field_swallowed :
    hfTryBody (Json.obj [("error", Json.str "quota exceeded")]) =
      Except.error (Json.str ("HuggingFace error: " ++ "quota exceeded")) ∧
    hfExtract 200 (jsonStringify (Json.obj [("error", Json.str "quota exceeded")]))
        (some (Json.obj [("error", Json.str "quota exceeded")])) =
      Except.ok (Json.str (jsonStringify (Json.obj [("error", Json.str "quota exceeded")]))) ∧
    hfExtract 503 (jsonStringify (Json.obj [("error", Json.str "quota exceeded")]))
        (some (Json.obj [("error", Json.str "quota exceeded")])) =
      Except.error ("HuggingFace " ++ toString 503 ++ ": " ++
        jsonStringify (Json.obj [("error", Json.str "quota exceeded")])) := by
  refine ⟨rfl, rfl, rfl⟩

/-- Counterexample to claim C2: with max retries 2 and a transport that
always returns status 500, the resilient fetch performs 3 attempts but then
RETURNS the final 5xx response to the caller — no exception propagates
(the 5xx rethrow is guarded by `attempt < maxRetries`, so the last attempt
falls through to `return res`). -/
theorem backoff_5xx_counterexample :
    exponentialBackoffFetch alwaysFive 2 = (3, Except.ok ⟨500⟩) ∧
    ∀ e, (exponentialBackoffFetch alwaysFive 2).2 ≠ Except.error e := by
  have h : exponentialBackoffFetch alwaysFive 2 = (3, Except.ok ⟨500⟩) := rfl
  refine ⟨h, ?_⟩
  intro e he
  rw [h] at he
  simp at he

/-- Helper for the amended claim C2: with an always-5xx transport the loop
started at `attempt = a` with bound `a + k` performs `k + 1` calls and
returns the last response. -/
lemma bLoop_all5xx (s : Nat) (f : Nat → Except String Resp) (hs : 500 ≤ s)
    (hf : ∀ i, f i = Except.ok ⟨s⟩) :
    ∀ (k a : Nat), bLoop f (a + k) a (k + 1) = (k + 1, Except.ok ⟨s⟩) := by
  intro k
  induction k with
  | zero =>
    intro a
    unfold bLoop
    rw [hf a]
    simp
  | succ k ih =>
    intro a
    unfold bLoop
    rw [hf a]
    simp only
    rw [if_pos ⟨hs, by omega⟩, if_neg (by omega)]
    have h2 : a + (k + 1) = (a + 1) + k := by omega
    rw [h2, ih (a + 1)]

/-- Helper for the amended claim C2: with an always-throwing transport the
loop started at `attempt = a` with bound `a + k` performs `k + 1` calls and
propagates the last thrown error unmodified. -/
lemma bLoop_allThrow (msg : String) (g : Nat → Except String Resp)
    (hg : ∀ i, g i = Except.error msg) :
    ∀ (k a : Nat), bLoop g (a + k) a (k + 1) = (k + 1, Except.error msg) := by
  intro k
  induction k with
  | zero =>
    intro a
    unfold bLoop
    rw [hg a]
    simp
  | succ k ih =>
    intro a
    unfold bLoop
    rw [hg a]
    simp only
    rw [if_neg (by omega)]
    have h2 : a + (k + 1) = (a + 1) + k := by omega
    rw [h2, ih (a + 1)]

/-- Amended claim C2: for every configured maximum retry count N, a
transport that always returns a 5xx status is attempted exactly N+1 times,
after which the final 5xx RESPONSE is returned to the caller (adapters see
`res.ok = false`); an exception propagates unmodified only when the
transport itself throws (connection failure), which is likewise attempted
exactly N+1 times. -/
theorem backoff_retry_bound (N s : Nat) (f g : Nat → Except String Resp)
    (hs : 500 ≤ s) (hf : ∀ i, f i = Except.ok ⟨s⟩) (msg : String)
    (hg : ∀ i, g i = Except.error msg) :
    exponentialBackoffFetch f N = (N + 1, Except.ok ⟨s⟩) ∧
    exponentialBackoffFetch g N = (N + 1, Except.error msg) := by
  constructor
  · have := bLoop_all5xx s f hs hf N 0
    simpa [exponentialBackoffFetch] using this
  · have := bLoop_allThrow msg g hg N 0
    simpa [exponentialBackoffFetch] using this

/-- Witness for the amended claim C2 at N = 3. -/
theorem backoff_retry_bound_witness :
    exponentialBackoffFetch alwaysFive 3 = (4, Except.ok ⟨500⟩) :=
  (backoff_retry_bound 3 500 alwaysFive (fun _ => Except.error "ECONNREFUSED")
    (by omega) (fun _ => rfl) "ECONNREFUSED" (fun _ => rfl)).1

/-- Dropping a prefix twice is the same as dropping it once. -/
lemma dropWhile_idem {α} (p : α → Bool) (l : List α) :
    (l.dropWhile p).dropWhile p = l.dropWhile p := by
  induction l with
  | nil => rfl
  | cons a l ih =>
    cases hp : p a with
    | true => simp [List.dropWhile_cons, hp, ih]
    | false => simp [List.dropWhile_cons, hp]

/-- Members survive into the list that was dropped from. -/
lemma mem_of_mem_dropWhile {α} (p : α → Bool) (l : List α) (x : α)
    (hx : x ∈ l.dropWhile p) : x ∈ l := by
  induction l with
  | nil => simp at hx
  | cons a l ih =>
    cases hp : p a with
    | true =>
      rw [List.dropWhile_cons] at hx
      simp only [hp, if_true] at hx
      exact List.mem_cons_of_mem a (ih hx)
    | false =>
      rw [List.dropWhile_cons] at hx
      simpa [hp] using hx

/-- The head remaining after a `dropWhile` does not satisfy the predicate. -/
lemma head_dropWhile_false {α} (p : α → Bool) (l : List α) (c : α) (cs : List α)
    (h : l.dropWhile p = c :: cs) : p c = false := by
  induction l with
  | nil => simp at h
  | cons a l ih =>
    cases hp : p a with
    | true =>
      rw [List.dropWhile_cons] at h
      simp only [hp, if_true] at h
      exact ih h
    | false =>
      rw [List.dropWhile_cons] at h
      simp only [hp] at h
      obtain ⟨rfl, -⟩ := List.cons.inj h
      exact hp

/-- `dropWhile` over an append when the left part is entirely dropped. -/
lemma dropWhile_append_of_nil {α} (p : α → Bool) (A B : List α)
    (h : A.dropWhile p = []) : (A ++ B).dropWhile p = B.dropWhile p := by
  induction A with
  | nil => simp
  | cons a A ih =>
    cases hp : p a with
    | true =>
      rw [List.dropWhile_cons] at h
      simp only [hp, if_true] at h
      simp [List.cons_append, List.dropWhile_cons, hp, ih h]
    | false =>
      rw [List.dropWhile_cons] at h
      simp [hp] at h

/-- `dropWhile` over an append when the left part retains a head. -/
lemma dropWhile_append_of_cons {α} (p : α → Bool) (A B : List α) (y : α) (ys : List α)
    (h : A.dropWhile p = y :: ys) : (A ++ B).dropWhile p = y :: (ys ++ B) := by
  induction A with
  | nil => simp at h
  | cons a A ih =>
    cases hp : p a with
    | true =>
      rw [List.dropWhile_cons] at h
      simp only [hp, if_true] at h
      simp [List.cons_append, List.dropWhile_cons, hp, ih h]
    | false =>
      rw [List.dropWhile_cons] at h
      simp only [hp] at h
      obtain ⟨rfl, rfl⟩ := List.cons.inj h
      simp [List.cons_append, List.dropWhile_cons, hp]

/-- Right trim distributes over a cons whose head is kept. -/
lemma trimR_cons_of_false (p : Char → Bool) (c : Char) (cs : List Char)
    (hc : p c = false) : trimR p (c :: cs) = c :: trimR p cs := by
  unfold trimR
  rw [List.reverse_cons]
  cases hA : cs.reverse.dropWhile p with
  | nil =>
    rw [dropWhile_append_of_nil p _ _ hA]
    simp [List.dropWhile_cons, hc, hA]
  | cons y ys =>
    rw [dropWhile_append_of_cons p _ _ y ys hA]
    simp [hA, List.reverse_cons, List.reverse_append]

/-- A list fixed by the left trim stays fixed after the right trim. -/
lemma trimL_trimR (p : Char → Bool) (l : List Char) (h : trimL p l = l) :
    trimL p (trimR p l) = trimR p l := by
  cases l with
  | nil => rfl
  | cons c cs =>
    have hc : p c = false := by
      cases hp : p c with
      | false => rfl
      | true =>
        unfold trimL at h
        rw [List.dropWhile_cons] at h
        simp only [hp, if_true] at h
        have hlen := congrArg List.length h
        have hle : (cs.dropWhile p).length ≤ cs.length := by
          have := List.dropWhile_sublist (l := cs) (p := p)
          exact this.length_le
        simp at hlen
        omega
    rw [trimR_cons_of_false p c cs hc]
    unfold trimL
    simp [List.dropWhile_cons, hc]

/-- Right trim is idempotent. -/
lemma trimR_idem (p : Char → Bool) (l : List Char) : trimR p (trimR p l) = trimR p l := by
  unfold trimR
  rw [List.reverse_reverse, dropWhile_idem]

/-- The JavaScript trim is idempotent. -/
lemma jsTrim_idem (l : List Char) : jsTrim (jsTrim l) = jsTrim l := by
  unfold jsTrim
  rw [trimL_trimR isJsSpace (trimL isJsSpace l) (dropWhile_idem isJsSpace l),
    trimR_idem]

/-- A non-empty list fixed by the left trim has a non-empty trim. -/
lemma jsTrim_ne_nil_of_fix (l : List Char) (hne : l ≠ []) (hfix : trimL isJsSpace l = l) :
    jsTrim l ≠ [] := by
  unfold jsTrim
  rw [hfix]
  cases l with
  | nil => exact absurd rfl hne
  | cons c cs =>
    have hc : isJsSpace c = false := by
      cases hp : isJsSpace c with
      | false => rfl
      | true =>
        unfold trimL at hfix
        rw [List.dropWhile_cons] at hfix
        simp only [hp, if_true] at hfix
        have hle : (cs.dropWhile isJsSpace).length ≤ cs.length :=
          (List.dropWhile_sublist (l := cs) (p := isJsSpace)).length_le
        have hlen := congrArg List.length hfix
        simp at hlen
        omega
    rw [trimR_cons_of_false isJsSpace c cs hc]
    simp

/-- Members of the trim are members of the original list. -/
lemma mem_of_mem_jsTrim (x : Char) (l : List Char) (hx : x ∈ jsTrim l) : x ∈ l := by
  unfold jsTrim trimR trimL at hx
  rw [List.mem_reverse] at hx
  have h1 := mem_of_mem_dropWhile _ _ _ hx
  rw [List.mem_reverse] at h1
  exact mem_of_mem_dropWhile _ _ _ h1

/-- Shape of a successful numbered-line match: the capture is fixed by the
left trim (the regex consumed all whitespace before it) and its characters
come from the matched line. -/
lemma matchNumbered_some (l rest : List Char) (h : matchNumbered l = some rest) :
    trimL isJsSpace rest = rest ∧ ∀ x ∈ rest, x ∈ l := by
  unfold matchNumbered at h
  by_cases hds : ((l.dropWhile isJsSpace).takeWhile Char.isDigit).isEmpty
  · simp [hds] at h
  · by_cases hc : ((l.dropWhile isJsSpace).drop
        ((l.dropWhile isJsSpace).takeWhile Char.isDigit).length).headD ' ' == '.'
    · simp only [hds, hc, if_true, if_false, Bool.false_eq_true] at h
      obtain rfl := Option.some.inj h
      refine ⟨dropWhile_idem _ _, ?_⟩
      intro x hx
      have h1 := mem_of_mem_dropWhile _ _ _ hx
      have h2 := List.mem_of_mem_tail h1
      have h3 : x ∈ l.dropWhile isJsSpace := List.drop_subset _ _ h2
      exact mem_of_mem_dropWhile _ _ _ h3
    · simp only [hds, hc, if_true, if_false, Bool.false_eq_true] at h
      exact Option.noConfusion h

/-- A split always produces at least one piece. -/
lemma splitChar_ne_nil (sep : Char) (l : List Char) : splitChar sep l ≠ [] := by
  cases l with
  | nil => simp [splitChar]
  | cons c cs =>
    unfold splitChar
    cases hc : (c == sep) with
    | true => simp [hc]
    | false =>
      simp only [hc, Bool.false_eq_true, if_false]
      cases splitChar sep cs <;> simp

/-- No piece of a split contains the separator. -/
lemma splitChar_pieces_sep_not_mem (sep : Char) (l : List Char) :
    ∀ piece ∈ splitChar sep l, sep ∉ piece := by
  induction l with
  | nil =>
    intro piece hp
    simp [splitChar] at hp
    simp [hp]
  | cons c cs ih =>
    intro piece hp
    unfold splitChar at hp
    cases hc : (c == sep) with
    | true =>
      simp only [hc, if_true] at hp
      rcases List.mem_cons.mp hp with rfl | hmem
      · simp
      · exact ih piece hmem
    | false =>
      simp only [hc, Bool.false_eq_true, if_false] at hp
      cases hsp : splitChar sep cs with
      | nil => exact absurd hsp (splitChar_ne_nil sep cs)
      | cons p ps =>
        rw [hsp] at hp
        rcases List.mem_cons.mp hp with rfl | hmem
        · intro hin
          rcases List.mem_cons.mp hin with rfl | hin2
          · simp at hc
          · exact ih p (by rw [hsp]; exact List.mem_cons_self p ps) hin2
        · exact ih piece (by rw [hsp]; exact List.mem_cons_of_mem p hmem)

/-- Splitting on an absent separator returns the whole list as the single
piece. -/
lemma splitChar_of_not_mem (sep : Char) (l : List Char) (h : sep ∉ l) :
    splitChar sep l = [l] := by
  induction l with
  | nil => rfl
  | cons c cs ih =>
    have hc : (c == sep) = false := by
      cases hcc : (c == sep) with
      | false => rfl
      | true =>
        rw [beq_iff_eq] at hcc
        exact absurd (hcc ▸ List.mem_cons_self c cs) h
    unfold splitChar
    rw [ih (fun hm => h (List.mem_cons_of_mem c hm))]
    simp [hc]

/-- Invariant of the backend parser loop: provided every input line is free
of line breaks, all accumulated items are good, and the in-progress item
trims to non-empty when non-empty and contains no line break, every item of
the loop's output is good. -/
lemma pnlLoop_good (lines : List (List Char)) :
    ∀ (items : List (List Char)) (current : List Char),
      (∀ l ∈ lines, ('\n' : Char) ∉ l) →
      (∀ i ∈ items, GoodItem i) →
      (current ≠ [] → jsTrim current ≠ []) →
      ('\n' : Char) ∉ current →
      ∀ i ∈ pnlLoop lines items current, GoodItem i := by
  induction lines with
  | nil =>
    intro items current hlines hitems hcur hcn i hi
    unfold pnlLoop at hi
    by_cases hc : current.isEmpty
    · rw [if_pos hc] at hi
      exact hitems i hi
    · rw [if_neg hc] at hi
      rcases List.mem_append.mp hi with h | h
      · exact hitems i h
      · rw [List.mem_singleton] at h
        subst h
        refine ⟨hcur (by simpa [List.isEmpty_iff] using hc), ?_⟩
        intro hmem
        exact hcn (mem_of_mem_jsTrim _ _ hmem)
  | cons l ls ih =>
    intro items current hlines hitems hcur hcn i hi
    unfold pnlLoop at hi
    have hl : ('\n' : Char) ∉ l := hlines l (List.mem_cons_self l ls)
    have hls : ∀ l' ∈ ls, ('\n' : Char) ∉ l' := fun l' hl' =>
      hlines l' (List.mem_cons_of_mem l hl')
    cases hm : matchNumbered l with
    | some rest =>
      rw [hm] at hi
      have hrest := matchNumbered_some l rest hm
      have hni : ∀ j ∈ (if current.isEmpty then items
          else items ++ [jsTrim current]), GoodItem j := by
        by_cases hc : current.isEmpty
        · rw [if_pos hc]
          exact hitems
        · rw [if_neg hc]
          intro j hj
          rcases List.mem_append.mp hj with h | h
          · exact hitems j h
          · rw [List.mem_singleton] at h
            subst h
            refine ⟨hcur (by simpa [List.isEmpty_iff] using hc), ?_⟩
            intro hmem
            exact hcn (mem_of_mem_jsTrim _ _ hmem)
      refine ih _ rest hls hni ?_ ?_ i hi
      · intro hne
        exact jsTrim_ne_nil_of_fix rest hne hrest.1
      · intro hmem
        exact hl (hrest.2 _ hmem)
    | none =>
      rw [hm] at hi
      by_cases hb : (jsTrim l).isEmpty
      · rw [if_pos hb] at hi
        exact ih _ current hls hitems hcur hcn i hi
      · rw [if_neg hb] at hi
        refine ih _ (jsTrim (current ++ ' ' :: jsTrim l)) hls hitems ?_ ?_ i hi
        · intro hne
          rw [jsTrim_idem]
          exact hne
        · intro hmem
          have h1 := mem_of_mem_jsTrim _ _ hmem
          rcases List.mem_append.mp h1 with h2 | h2
          · exact hcn h2
          · rcases List.mem_cons.mp h2 with h3 | h3
            · exact absurd h3 (by decide)
            · exact hl (mem_of_mem_jsTrim _ _ h3)

/-- Every item produced by the backend `parseNumberedList` is a non-empty
string containing no line break. -/
lemma parse_items_good (txt : String) :
    ∀ s ∈ parseNumberedList txt, s ≠ "" ∧ ('\n' : Char) ∉ s.data := by
  intro s hs
  unfold parseNumberedList at hs
  rcases List.mem_map.mp hs with ⟨i, hi, rfl⟩
  have hg := pnlLoop_good (splitChar '\n' txt.data) [] []
    (fun l hl => splitChar_pieces_sep_not_mem '\n' txt.data l hl)
    (by intro j hj; simp at hj)
    (fun h => absurd rfl h)
    (by simp)
    i hi
  refine ⟨?_, hg.2⟩
  intro he
  exact hg.1 (congrArg String.data he)

/-- Counterexample to claim C1: in a configuration with two usable backends
(OpenAI selected, HuggingFace configured and succeeding), the inspire
handler of server.js attempts ONLY the selected backend and returns
HTTP 503 as soon as it throws — the next backend is never attempted.  The
hybrid variant behaves the same way (Ollama selected and failing, Gemini
configured and succeeding, 503 returned after a single attempt). -/
theorem inspire_no_runtime_fallback_counterexample :
    selectInspireBackend cfgTwoBackends = Backend.openai ∧
    genPreferredFails Backend.huggingface = Except.ok "1. A\n2. B\n3. C" ∧
    inspireAttempt cfgTwoBackends genPreferredFails =
      ([Backend.openai], Except.error (503, ErrCode.AI_SERVICE_ERROR)) ∧
    Backend.huggingface ∉ (inspireAttempt cfgTwoBackends genPreferredFails).1 ∧
    inspireAttemptHybrid true true false
        (fun b => if b == Backend.ollama then Except.error "boom" else Except.ok "ok") =
      ([Backend.ollama], Except.error (503, ErrCode.AI_SERVICE_ERROR)) := by
  refine ⟨rfl, rfl, rfl, by decide, rfl⟩

/-- Amended claim C1: for the Inspire task the orchestrator performs
exactly one backend attempt, chosen statically from `PREFERRED_PROVIDER`
and the configured keys; on that backend's success its output is returned,
and on any exception from it AiServiceUnavailable (HTTP 503) is returned
immediately — no other backend in the configuration is attempted. -/
theorem inspire_single_attempt (e : EnvCfg) (gen : Backend → Except String String) :
    (inspireAttempt e gen).1 = [selectInspireBackend e] ∧
    (∀ out, gen (selectInspireBackend e) = Except.ok out →
      (inspireAttempt e gen).2 = Except.ok out) ∧
    (∀ err, gen (selectInspireBackend e) = Except.error err →
      (inspireAttempt e gen).2 = Except.error (503, ErrCode.AI_SERVICE_ERROR)) := by
  cases hg : gen (selectInspireBackend e) with
  | ok out =>
    refine ⟨by simp [inspireAttempt, hg], ?_, ?_⟩
    · intro o ho
      injection ho with h
      subst h
      simp [inspireAttempt, hg]
    · intro err herr
      simp at herr
  | error err =>
    refine ⟨by simp [inspireAttempt, hg], ?_, ?_⟩
    · intro o ho
      simp at ho
    · intro e2 he2
      simp [inspireAttempt, hg]

/-- Witness for the amended claim C1 at the two-backend configuration. -/
theorem inspire_single_attempt_witness :
    genPreferredFails (selectInspireBackend cfgTwoBackends) = Except.error "boom" ∧
    (inspireAttempt cfgTwoBackends genPreferredFails).2 =
      Except.error (503, ErrCode.AI_SERVICE_ERROR) :=
  ⟨rfl, (inspire_single_attempt cfgTwoBackends genPreferredFails).2.2 "boom" rfl⟩

/-- Claim C3 evaluated on the code (code_bug): one concept is rejected with
400 / INVALID_INPUT and two or three concepts are accepted, but a FOUR
concept list is also accepted (the guard only checks `length < 2`),
contradicting the handler's own "Provide 2 or 3 concepts" message and the
claimed rejection of 4 concepts. -/
theorem synthesize_validation_behavior :
    synthesizeValidate (Json.arr [Json.str "a"]) = some (400, ErrCode.INVALID_INPUT) ∧
    synthesizeValidate (Json.arr [Json.str "a", Json.str "b"]) = none ∧
    synthesizeValidate (Json.arr [Json.str "a", Json.str "b", Json.str "c"]) = none ∧
    synthesizeValidate (Json.arr [Json.str "a", Json.str "b", Json.str "c", Json.str "d"]) =
      none ∧
    synthesizeValidate (Json.str "a") = some (400, ErrCode.INVALID_INPUT) := by
  refine ⟨rfl, rfl, rfl, rfl, rfl⟩

/-- Claim C6: the numbered-list parser maps "1. Alpha\n2. Beta\n3. Gamma" to
exactly ["Alpha","Beta","Gamma"], and maps "1. Alpha\ncontinued\n2. Beta" to
exactly ["Alpha continued","Beta"]: a non-numbered non-blank line is
space-joined onto the item being accumulated and items appear in source
order. -/
theorem parse_round_trip_and_continuation :
    parseNumberedList "1. Alpha\n2. Beta\n3. Gamma" = ["Alpha", "Beta", "Gamma"] ∧
    parseNumberedList "1. Alpha\ncontinued\n2. Beta" = ["Alpha continued", "Beta"] := by
  constructor <;> decide

/-- Claim C7: when the front-end numbered-list parser's line pass produces
at most one item, it re-splits the original text on sentence-ending
punctuation followed by whitespace, semicolons, or bullets, trims, and
drops empties; in particular "Alpha. Beta. Gamma." (no numbering) yields 3
sentence-split items, none of them empty. -/
theorem parser_degraded_fallback :
    (∀ text : String, (feLineItems text.data).length ≤ 1 →
      feParseNumberedList text = ((feSentenceItems text.data).take 3).map String.mk) ∧
    feParseNumberedList "Alpha. Beta. Gamma." = ["Alpha.", "Beta.", "Gamma."] ∧
    ∀ s ∈ feParseNumberedList "Alpha. Beta. Gamma.", s ≠ "" := by
  refine ⟨?_, by decide, by decide⟩
  intro text h
  simp only [feParseNumberedList]
  rw [if_pos h]

/-- Witness for claim C7 at the concrete prose input. -/
theorem parser_degraded_fallback_witness :
    (feLineItems ("Alpha. Beta. Gamma." : String).data).length ≤ 1 ∧
    feParseNumberedList "Alpha. Beta. Gamma." =
      ((feSentenceItems ("Alpha. Beta. Gamma." : String).data).take 3).map String.mk :=
  ⟨by decide, parser_degraded_fallback.1 "Alpha. Beta. Gamma." (by decide)⟩

/-- Counterexample to claim C8: on the input "1." (a line that is purely a
number followed by a period with no trailing content) the backend parser
outputs the EMPTY list — no empty-string item appears, because the
JavaScript truthiness guard `if (current)` drops empty captures. -/
theorem parse_pure_number_counterexample :
    parseNumberedList "1." = [] ∧ "" ∉ parseNumberedList "1." := by
  constructor <;> decide

/-- Amended claim C8: a line that is purely a number followed by a period
contributes NO item (no output item of the parser is ever the empty
string), and the empty input yields an empty sequence. -/
theorem parse_no_empty_items :
    (∀ (txt s : String), s ∈ parseNumberedList txt → 0 < s.length) ∧
    parseNumberedList "1." = [] ∧
    parseNumberedList "" = [] := by
  refine ⟨?_, by decide, by decide⟩
  intro txt s hs
  have hne := (parse_items_good txt s hs).1
  cases s with
  | mk data =>
    cases data with
    | nil => exact absurd rfl hne
    | cons c cs => simp [String.length]

/-- Witness for the amended claim C8 at a concrete parse output. -/
theorem parse_no_empty_items_witness : 0 < ("Alpha" : String).length :=
  parse_no_empty_items.1 "1. Alpha" "Alpha" (by decide)

/-- Claim C9: if title generation throws for a parsed item during Inspire,
the response still contains an entry for that item whose title is the
item's own text truncated to its first 80 characters and non-empty (items
contain no line break, so the first line is the whole item); the ideas
array keeps one entry per item, so the failure is never surfaced as a
request-level error. -/
theorem inspire_title_degradation (txt : String)
    (titleOf : String → Except String String) (it : String) (e : String)
    (hmem : it ∈ parseNumberedList txt) (herr : titleOf it = Except.error e) :
    (inspireIdeas (parseNumberedList txt) titleOf).length =
      (parseNumberedList txt).length ∧
    ∃ idea ∈ inspireIdeas (parseNumberedList txt) titleOf,
      idea.text = it ∧ idea.title = String.mk (it.data.take 80) ∧ idea.title ≠ "" := by
  have hgood := parse_items_good txt it hmem
  have hnl : splitChar '\n' it.data = [it.data] := splitChar_of_not_mem _ _ hgood.2
  have hfb : fallbackTitle it = String.mk (it.data.take 80) := by
    unfold fallbackTitle
    rw [hnl]
    rfl
  have hne : String.mk (it.data.take 80) ≠ "" := by
    cases hd : it.data with
    | nil =>
      exfalso
      apply hgood.1
      cases it with
      | mk data => rw [show data = [] from hd]
    | cons c cs =>
      intro hcontra
      have := congrArg String.data hcontra
      simp at this
  have htitle : jsOrEmptyStr (resolveTitle it (titleOf it)) = String.mk (it.data.take 80) := by
    rw [herr]
    unfold resolveTitle
    rw [hfb]
    unfold jsOrEmptyStr
    rw [if_neg hne]
  constructor
  · simp [inspireIdeas]
  · refine ⟨⟨it, jsOrEmptyStr (resolveTitle it (titleOf it))⟩, ?_, rfl, htitle, ?_⟩
    · exact List.mem_map_of_mem _ hmem
    · rw [htitle]
      exact hne

/-- Witness for claim C9: one item, always-failing title generation. -/
theorem inspire_title_degradation_witness :
    "Alpha" ∈ parseNumberedList "1. Alpha" ∧
    ((inspireIdeas (parseNumberedList "1. Alpha")
        (fun _ => Except.error "boom")).length =
      (parseNumberedList "1. Alpha").length ∧
    ∃ idea ∈ inspireIdeas (parseNumberedList "1. Alpha")
        (fun _ => Except.error "boom"),
      idea.text = "Alpha" ∧ idea.title = String.mk (("Alpha" : String).data.take 80) ∧
        idea.title ≠ "") :=
  ⟨by decide, inspire_title_degradation "1. Alpha" (fun _ => Except.error "boom")
    "Alpha" "boom" (by decide) rfl⟩

/-- Claim C10: for every generated output string, the critique points array
has between 1 and 3 elements — parsed points are truncated to 3, and when
parsing yields zero points a single fallback element derived from the raw
output is substituted. -/
theorem critique_points_bounds (output : String) :
    1 ≤ (critiqueFinalPoints output).length ∧
    (critiqueFinalPoints output).length ≤ 3 ∧
    (parseNumberedList output = [] →
      critiqueFinalPoints output = [String.mk (output.data.take 100) ++ "..."]) ∧
    (parseNumberedList output ≠ [] →
      critiqueFinalPoints output = (parseNumberedList output).take 3) := by
  unfold critiqueFinalPoints
  cases hp : parseNumberedList output with
  | nil => simp [hp]
  | cons a l =>
    have hlen : 0 < ((a :: l).take 3).length := by
      simp [List.length_take]
    rw [if_pos hlen]
    refine ⟨hlen, by simp [List.length_take], ?_, fun _ => rfl⟩
    intro hcontra
    exact absurd hcontra (by simp)

/-- Witness for claim C10 at a four-point generated output. -/
theorem critique_points_bounds_witness :
    critiqueFinalPoints "1. A\n2. B\n3. C\n4. D" =
      (parseNumberedList "1. A\n2. B\n3. C\n4. D").take 3 :=
  (critique_points_bounds "1. A\n2. B\n3. C\n4. D").2.2.2 (by decide)
